import Mathlib

/-!
Shallow embedding of the simulation engine of `src/src/scenes/maze.ts`
(the `MazeScene` variant with NPC AI, score and level state, i.e. the
second class in that file, lines 525-1548).

Modelling conventions, used throughout:

* The wall grid `boolean[6][11]` is a total function `Nat → Nat → Bool`
  (row → col).  All writes performed by the generator target in-range
  cells, and every guarded read (`wallMatrix[r]?.[c]`, `isWall`) masks
  out-of-range indices to `false`, exactly as the JS array access does.
* Pixel positions are exact rationals (`ℚ`).  JS numbers are binary
  floats; every claim settled here concerns order comparisons, branch
  structure and clamping, which are preserved by exact arithmetic.
* Each call to `Math.random()` is an oracle input: a `Nat` oracle `r`
  models `Math.floor(Math.random() * k)` as `r % k` (same range, and all
  theorems quantify over every oracle value), a `ℚ` oracle models a raw
  `Math.random()` value.
* `Math.sqrt` appears only (a) in comparisons of a distance against a
  constant, embedded exactly as the equivalent comparison of squares,
  (b) in `steps = Math.floor(dist / 20)` of `hasLineOfSight`, embedded
  exactly as `Nat.sqrt ⌊d2 / 400⌋` (both equal the greatest `n` with
  `400 * n^2 ≤ d2`), and (c) as the normalisation factor `1 / dist` of a
  steering vector, which is irrational in general and is therefore an
  oracle input `invDist : ℚ`; no theorem below depends on its value.
* Rendering, camera, input plumbing, cookies and asset handles are
  presentation-layer and are not part of the simulation state.
-/

namespace Foxes

/-! ### Constants (maze.ts lines 527-567) -/

def TILE_SIZE : ℚ := 120
def MAP_WIDTH : ℚ := 1320
def MAP_HEIGHT : ℚ := 720
def GRID_COLS : Nat := 11
def GRID_ROWS : Nat := 6

def BUSH_VERT_MIDDLE : Nat := 0
def BUSH_VERT_CAP_TOP : Nat := 1
def BUSH_HORIZ_MIDDLE : Nat := 2
def BUSH_HORIZ_CAP_LEFT : Nat := 3
def BUSH_JOINER : Nat := 4
def BUSH_HORIZ_CAP_RIGHT : Nat := 5
def BUSH_VERT_CAP_BOTTOM : Nat := 6

def MIN_WALL_LENGTH : Nat := 2
def MAX_WALL_LENGTH : Nat := 5
def NUM_DETACHED_WALLS : Nat := 6
def MAX_PLACEMENT_ATTEMPTS : Nat := 200

def PLAYER_SPEED : ℚ := 8
def HITBOX_SIZE : ℚ := 80
def HITBOX_OFFSET : ℚ := 20

def CHICK_SPEED_WANDER : ℚ := 2
def CHICK_SPEED_FLEE : ℚ := 5
def DOG_SPEED_WANDER : ℚ := 3
def DOG_SPEED_CHASE : ℚ := 5
def DOG_CHASE_RANGE : ℚ := 300

/-! ### Grid model -/

/-- `wallMatrix`: row → col → is-wall.  Models `boolean[6][11]`. -/
def Grid : Type := Nat → Nat → Bool

/-- The all-grass matrix built at the top of `generateMaze` (lines 916-920). -/
def emptyGrid : Grid := fun _ _ => false

/-- `this.wallMatrix[row][col] = true`. -/
def setWall (g : Grid) (row col : Nat) : Grid :=
  fun r c => if r = row ∧ c = col then true else g r c

/-- `isWall` (lines 1013-1018): out-of-range queries return `false`.
`wallMatrix[r]?.[c]` accesses (collision, line of sight) have the same
semantics (`undefined` is falsy) and are embedded with this function too. -/
def isWall (g : Grid) (row col : ℤ) : Bool :=
  if row < 0 ∨ (GRID_ROWS : ℤ) ≤ row ∨ col < 0 ∨ (GRID_COLS : ℤ) ≤ col then false
  else g row.toNat col.toNat

/-! ### Maze generator (lines 915-1011) -/

/-- The `positions` array of one `placeDetachedWall` candidate, and the
wall-writing loops: `foldl setWall` is the sequential `wallMatrix[...] = true`. -/
def applySeg (g : Grid) (pos : List (Nat × Nat)) : Grid :=
  pos.foldl (fun a p => setWall a p.1 p.2) g

/-- The six cells written by `placeIntersectingPair` (lines 939-960), in
write order: horizontal wall `hRow = 2`, `hStartCol = 2`, length 3, then the
vertical wall at `intersectCol = 3`, rows 1..3 (cell `(2,3)` written twice). -/
def pairCells : List (Nat × Nat) := [(2, 2), (2, 3), (2, 4)] ++ [(1, 3), (2, 3), (3, 3)]

/-- `placeIntersectingPair` (lines 939-960). -/
def placeIntersectingPair (g : Grid) : Grid := applySeg g pairCells

/-- One `Math.random()` draw per random quantity of a `placeDetachedWall`
attempt (line 963-982). -/
structure WallChoice where
  isHorizontal : Bool
  lenRand : Nat
  mainRand : Nat
  crossRand : Nat

/-- The candidate `positions` list of `placeDetachedWall` (lines 963-987),
`none` for the early `return false` when the segment cannot fit. -/
def wallPositions (ch : WallChoice) : Option (List (Nat × Nat)) :=
  let length := MIN_WALL_LENGTH + ch.lenRand % (MAX_WALL_LENGTH - MIN_WALL_LENGTH + 1)
  if ch.isHorizontal then
    let maxStartCol := GRID_COLS - 1 - length
    if maxStartCol < 1 then none
    else
      let startCol := 1 + ch.mainRand % maxStartCol
      let startRow := 1 + ch.crossRand % (GRID_ROWS - 2)
      some ((List.range length).map fun k => (startRow, startCol + k))
  else
    let maxStartRow := GRID_ROWS - 1 - length
    if maxStartRow < 1 then none
    else
      let startRow := 1 + ch.mainRand % maxStartRow
      let startCol := 1 + ch.crossRand % (GRID_COLS - 2)
      some ((List.range length).map fun k => (startRow + k, startCol))

/-- `touchesAnyWall` (lines 1003-1011): the cell itself or any in-range
4-neighbor is already a wall.  The sequential early returns are an or-chain. -/
def touchesAnyWall (g : Grid) (row col : Nat) : Bool :=
  g row col ||
  (decide (0 < row) && g (row - 1) col) ||
  (decide (row < GRID_ROWS - 1) && g (row + 1) col) ||
  (decide (0 < col) && g row (col - 1)) ||
  (decide (col < GRID_COLS - 1) && g row (col + 1))

/-- `placeDetachedWall` (lines 962-1001): `some pos` when the candidate is
accepted (the caller then commits `applySeg g pos`), `none` when any cell of
the candidate touches an existing wall, or the candidate cannot fit. -/
def placeDetachedWall (g : Grid) (ch : WallChoice) : Option (List (Nat × Nat)) :=
  (wallPositions ch).bind fun pos =>
    if pos.all fun p => !touchesAnyWall g p.1 p.2 then some pos else none

/-- Result of `generateMaze`: the grid, the accepted detached segments in
placement order, and the loop counters. -/
structure GenResult where
  grid : Grid
  segs : List (List (Nat × Nat))
  placed : Nat
  attempts : Nat

/-- The `while (placedCount < NUM_DETACHED_WALLS && attempts < MAX_PLACEMENT_ATTEMPTS)`
loop of `generateMaze` (lines 929-934).  `fuel` is the remaining attempt
budget `MAX_PLACEMENT_ATTEMPTS - attempts`, so the loop condition
`attempts < MAX_PLACEMENT_ATTEMPTS` is `fuel ≠ 0`. -/
def genLoop (oracle : Nat → WallChoice) :
    Nat → Nat → Nat → Grid → List (List (Nat × Nat)) → GenResult
  | 0, attempts, placed, g, segs => ⟨g, segs, placed, attempts⟩
  | fuel + 1, attempts, placed, g, segs =>
    if placed < NUM_DETACHED_WALLS then
      match placeDetachedWall g (oracle attempts) with
      | some pos => genLoop oracle fuel (attempts + 1) (placed + 1) (applySeg g pos) (segs ++ [pos])
      | none => genLoop oracle fuel (attempts + 1) placed g segs
    else ⟨g, segs, placed, attempts⟩

/-- `generateMaze` (lines 915-937): empty grid, the fixed intersecting pair,
then the bounded detached-wall loop. -/
def generateMaze (oracle : Nat → WallChoice) : GenResult :=
  genLoop oracle MAX_PLACEMENT_ATTEMPTS 0 0 (placeIntersectingPair emptyGrid) []

/-- Number of wall cells of the grid. -/
def countWalls (g : Grid) : Nat :=
  ((List.range GRID_ROWS).map fun r => ((List.range GRID_COLS).filter fun c => g r c).length).sum

/-- Two grid cells coincide or are 4-adjacent. -/
def cellTouches (p q : Nat × Nat) : Prop :=
  (p.1 = q.1 ∧ p.2 = q.2) ∨
  (p.1 = q.1 ∧ (p.2 + 1 = q.2 ∨ q.2 + 1 = p.2)) ∨
  (p.2 = q.2 ∧ (p.1 + 1 = q.1 ∨ q.1 + 1 = p.1))

/-- No cell of `u` coincides with or is 4-adjacent to a cell of `v`. -/
def segsSeparated (u v : List (Nat × Nat)) : Prop :=
  ∀ p ∈ u, ∀ q ∈ v, ¬ cellTouches p q

theorem cellTouches_symm {p q : Nat × Nat} (h : cellTouches p q) : cellTouches q p := by
  obtain ⟨a, b⟩ := p
  obtain ⟨c, d⟩ := q
  unfold cellTouches at h ⊢
  dsimp only at h ⊢
  omega

/-! ### Generation lemmas -/

theorem setWall_get (g : Grid) (row col r c : Nat) :
    setWall g row col r c = true ↔ (r = row ∧ c = col) ∨ g r c = true := by
  unfold setWall
  by_cases h : r = row ∧ c = col <;> simp [h]

theorem applySeg_get (pos : List (Nat × Nat)) (g : Grid) (r c : Nat) :
    applySeg g pos r c = true ↔ g r c = true ∨ (r, c) ∈ pos := by
  induction pos generalizing g with
  | nil => simp [applySeg]
  | cons p rest ih =>
    have hstep : applySeg g (p :: rest) = applySeg (setWall g p.1 p.2) rest := by
      simp [applySeg]
    rw [hstep, ih, setWall_get]
    constructor
    · rintro ((⟨h1, h2⟩ | h1) | h1)
      · exact Or.inr (by simp [Prod.ext_iff, h1, h2])
      · exact Or.inl h1
      · exact Or.inr (List.mem_cons_of_mem _ h1)
    · rintro (h1 | h1)
      · exact Or.inl (Or.inr h1)
      · rcases List.mem_cons.mp h1 with h2 | h2
        · exact Or.inl (Or.inl (by simpa [Prod.ext_iff] using h2))
        · exact Or.inr h2

theorem wallPositions_inner {ch : WallChoice} {pos : List (Nat × Nat)}
    (h : wallPositions ch = some pos) :
    ∀ p ∈ pos, 0 < p.1 ∧ p.1 < 5 ∧ 0 < p.2 ∧ p.2 < 10 := by
  unfold wallPositions at h
  simp only [MIN_WALL_LENGTH, MAX_WALL_LENGTH, GRID_COLS, GRID_ROWS] at h
  have hlen : ch.lenRand % (5 - 2 + 1) < 4 := Nat.mod_lt _ (by norm_num)
  by_cases hh : ch.isHorizontal
  · simp only [hh, if_true] at h
    split at h
    · exact absurd h (by simp)
    · rename_i hfit
      have hcol : ch.mainRand % (11 - 1 - (2 + ch.lenRand % (5 - 2 + 1))) <
          11 - 1 - (2 + ch.lenRand % (5 - 2 + 1)) := Nat.mod_lt _ (by omega)
      have hrow : ch.crossRand % (6 - 2) < 6 - 2 := Nat.mod_lt _ (by norm_num)
      obtain rfl := Option.some.inj h
      intro p hp
      simp only [List.mem_map, List.mem_range] at hp
      obtain ⟨k, hk, rfl⟩ := hp
      dsimp only
      omega
  · simp only [hh, if_false, Bool.false_eq_true] at h
    split at h
    · exact absurd h (by simp)
    · rename_i hfit
      have hfit' : ¬ (6 - 1 - (2 + ch.lenRand % (5 - 2 + 1)) < 1) := hfit
      have hrow : ch.mainRand % (6 - 1 - (2 + ch.lenRand % (5 - 2 + 1))) <
          6 - 1 - (2 + ch.lenRand % (5 - 2 + 1)) := Nat.mod_lt _ (by omega)
      have hcol : ch.crossRand % (11 - 2) < 11 - 2 := Nat.mod_lt _ (by norm_num)
      obtain rfl := Option.some.inj h
      intro p hp
      simp only [List.mem_map, List.mem_range] at hp
      obtain ⟨k, hk, rfl⟩ := hp
      dsimp only
      omega

theorem placeDetachedWall_some {g : Grid} {ch : WallChoice} {pos : List (Nat × Nat)}
    (h : placeDetachedWall g ch = some pos) :
    wallPositions ch = some pos ∧ ∀ p ∈ pos, touchesAnyWall g p.1 p.2 = false := by
  cases hw : wallPositions ch with
  | none =>
    unfold placeDetachedWall at h
    rw [hw, Option.none_bind] at h
    exact Option.noConfusion h
  | some ps =>
    unfold placeDetachedWall at h
    rw [hw, Option.some_bind] at h
    split at h
    · rename_i hall
      obtain rfl := Option.some.inj h
      refine ⟨rfl, fun p hp => ?_⟩
      have := List.all_eq_true.mp hall p hp
      simpa using this
    · exact Option.noConfusion h

theorem sep_of_touches_false {g : Grid} {row col : Nat}
    (hr0 : 0 < row) (hr1 : row < 5) (hc0 : 0 < col) (hc1 : col < 10)
    (ht : touchesAnyWall g row col = false)
    {a b : Nat} (hw : g a b = true) : ¬ cellTouches (row, col) (a, b) := by
  have e0 : g row col = false := by
    cases h : g row col
    · rfl
    · simp [touchesAnyWall, h] at ht
  have e1 : g (row - 1) col = false := by
    cases h : g (row - 1) col
    · rfl
    · simp [touchesAnyWall, h, hr0] at ht
  have e2 : g (row + 1) col = false := by
    cases h : g (row + 1) col
    · rfl
    · simp [touchesAnyWall, GRID_ROWS, h, hr1] at ht
  have e3 : g row (col - 1) = false := by
    cases h : g row (col - 1)
    · rfl
    · simp [touchesAnyWall, h, hc0] at ht
  have e4 : g row (col + 1) = false := by
    cases h : g row (col + 1)
    · rfl
    · simp [touchesAnyWall, GRID_COLS, h, hc1] at ht
  intro hT
  rcases hT with ⟨hx, hy⟩ | ⟨hx, hy | hy⟩ | ⟨hx, hy | hy⟩ <;> dsimp only at hx hy
  · rw [← hx, ← hy, e0] at hw; exact Bool.false_ne_true hw
  · rw [← hx, ← hy, e4] at hw; exact Bool.false_ne_true hw
  · have hb : b = col - 1 := by omega
    rw [← hx, hb, e3] at hw; exact Bool.false_ne_true hw
  · rw [← hx, ← hy, e2] at hw; exact Bool.false_ne_true hw
  · have ha : a = row - 1 := by omega
    rw [ha, ← hx, e1] at hw; exact Bool.false_ne_true hw

/-- Invariant of the generation loop: the grid is exactly the union of the
placed units, every unit cell is strictly inside the border, and distinct
units neither overlap nor touch. -/
def GoodGen (g : Grid) (units : List (List (Nat × Nat))) : Prop :=
  (∀ r c, g r c = true ↔ ∃ u ∈ units, (r, c) ∈ u) ∧
  (∀ u ∈ units, ∀ p ∈ u, 0 < p.1 ∧ p.1 < 5 ∧ 0 < p.2 ∧ p.2 < 10) ∧
  List.Pairwise segsSeparated units

theorem goodGen_extend {g : Grid} {units : List (List (Nat × Nat))} {ch : WallChoice}
    {pos : List (Nat × Nat)} (hg : GoodGen g units)
    (h : placeDetachedWall g ch = some pos) :
    GoodGen (applySeg g pos) (units ++ [pos]) := by
  obtain ⟨hcov, hint, hsep⟩ := hg
  obtain ⟨hwp, htouch⟩ := placeDetachedWall_some h
  have hinner := wallPositions_inner hwp
  refine ⟨?_, ?_, ?_⟩
  · intro r c
    rw [applySeg_get, hcov r c]
    constructor
    · rintro (⟨u, hu, hmem⟩ | hmem)
      · exact ⟨u, List.mem_append_left _ hu, hmem⟩
      · exact ⟨pos, List.mem_append_right _ (by simp), hmem⟩
    · rintro ⟨u, hu, hmem⟩
      rcases List.mem_append.mp hu with h1 | h1
      · exact Or.inl ⟨u, h1, hmem⟩
      · right
        simp only [List.mem_singleton] at h1
        subst h1
        exact hmem
  · intro u hu p hp
    rcases List.mem_append.mp hu with h1 | h1
    · exact hint u h1 p hp
    · simp only [List.mem_singleton] at h1
      subst h1
      exact hinner p hp
  · rw [List.pairwise_append]
    refine ⟨hsep, List.pairwise_singleton _ _, ?_⟩
    intro u hu v hv
    simp only [List.mem_singleton] at hv
    subst hv
    intro q hq p hp
    have hwall : g q.1 q.2 = true := (hcov q.1 q.2).mpr ⟨u, hu, hq⟩
    have hi := hinner p hp
    have hns := sep_of_touches_false hi.1 hi.2.1 hi.2.2.1 hi.2.2.2 (htouch p hp) hwall
    intro hqp
    exact hns (cellTouches_symm hqp)

theorem goodGen_base :
    GoodGen (placeIntersectingPair emptyGrid) [pairCells] := by
  refine ⟨?_, by decide, List.pairwise_singleton _ _⟩
  intro r c
  rw [placeIntersectingPair, applySeg_get]
  simp [emptyGrid]

theorem genLoop_good (o : Nat → WallChoice) :
    ∀ fuel attempts placed g segs, GoodGen g (pairCells :: segs) →
      GoodGen (genLoop o fuel attempts placed g segs).grid
        (pairCells :: (genLoop o fuel attempts placed g segs).segs) := by
  intro fuel
  induction fuel with
  | zero => intro a p g segs h; exact h
  | succ n ih =>
    intro a p g segs h
    simp only [genLoop]
    split
    · cases hpd : placeDetachedWall g (o a) with
      | some pos =>
        dsimp only
        have hext := goodGen_extend h hpd
        rw [List.cons_append] at hext
        exact ih _ _ _ _ hext
      | none =>
        dsimp only
        exact ih _ _ _ _ h
    · exact h

theorem genLoop_bounds (o : Nat → WallChoice) :
    ∀ fuel attempts placed g segs,
      placed ≤ NUM_DETACHED_WALLS → placed = segs.length →
      (genLoop o fuel attempts placed g segs).attempts ≤ attempts + fuel ∧
      (genLoop o fuel attempts placed g segs).placed ≤ NUM_DETACHED_WALLS ∧
      ((genLoop o fuel attempts placed g segs).placed = NUM_DETACHED_WALLS ∨
        (genLoop o fuel attempts placed g segs).attempts = attempts + fuel) ∧
      (genLoop o fuel attempts placed g segs).placed =
        (genLoop o fuel attempts placed g segs).segs.length := by
  intro fuel
  induction fuel with
  | zero =>
    intro a p g segs hp hl
    exact ⟨Nat.le_refl _, hp, Or.inr rfl, hl⟩
  | succ n ih =>
    intro a p g segs hp hl
    simp only [genLoop]
    split
    · rename_i hlt
      cases hpd : placeDetachedWall g (o a) with
      | some pos =>
        dsimp only
        have hrec := ih (a + 1) (p + 1) (applySeg g pos) (segs ++ [pos])
          (by unfold NUM_DETACHED_WALLS at hlt ⊢; omega) (by simp [hl])
        have ha := hrec.1
        refine ⟨by omega, hrec.2.1, ?_, hrec.2.2.2⟩
        rcases hrec.2.2.1 with h1 | h1
        · exact Or.inl h1
        · exact Or.inr (by omega)
      | none =>
        dsimp only
        have hrec := ih (a + 1) p g segs hp hl
        have ha := hrec.1
        refine ⟨by omega, hrec.2.1, ?_, hrec.2.2.2⟩
        rcases hrec.2.2.1 with h1 | h1
        · exact Or.inl h1
        · exact Or.inr (by omega)
    · rename_i hge
      dsimp only
      refine ⟨by omega, hp, Or.inl ?_, hl⟩
      unfold NUM_DETACHED_WALLS at hge hp ⊢
      omega

/-! ### Claim theorems: maze generation -/

/-- C1: each accepted detached segment is committed atomically (the new grid
is the old grid plus exactly the segment's cells), at acceptance time none of
its cells coincides with or is 4-adjacent to any wall cell already in the
grid, and in every generated maze no two distinct placed units (the
intersecting pair, or any accepted detached segment) overlap or touch. -/
theorem generator_adjacency_invariant :
    (∀ (g : Grid) (ch : WallChoice) (pos : List (Nat × Nat)),
        placeDetachedWall g ch = some pos →
          (∀ r c, applySeg g pos r c = (g r c || decide ((r, c) ∈ pos))) ∧
          ∀ p ∈ pos, ∀ a b, g a b = true → ¬ cellTouches p (a, b)) ∧
    ∀ o : Nat → WallChoice,
      List.Pairwise segsSeparated (pairCells :: (generateMaze o).segs) := by
  constructor
  · intro g ch pos h
    constructor
    · intro r c
      rw [Bool.eq_iff_iff, applySeg_get, Bool.or_eq_true, decide_eq_true_eq]
    · intro p hp a b hw
      obtain ⟨hwp, htouch⟩ := placeDetachedWall_some h
      have hi := wallPositions_inner hwp p hp
      exact sep_of_touches_false hi.1 hi.2.1 hi.2.2.1 hi.2.2.2 (htouch p hp) hw
  · intro o
    exact (genLoop_good o MAX_PLACEMENT_ATTEMPTS 0 0 (placeIntersectingPair emptyGrid) []
      goodGen_base).2.2

def pairGrid : Grid := placeIntersectingPair emptyGrid

def chDemo : WallChoice := ⟨true, 0, 6, 3⟩

theorem generator_adjacency_invariant_witness :
    placeDetachedWall pairGrid chDemo = some [(4, 7), (4, 8)] ∧
    applySeg pairGrid [(4, 7), (4, 8)] 4 7 =
      (pairGrid 4 7 || decide (((4, 7) : Nat × Nat) ∈ [((4, 7) : Nat × Nat), (4, 8)])) ∧
    ¬ cellTouches (4, 7) (2, 3) :=
  ⟨by decide,
   (generator_adjacency_invariant.1 pairGrid chDemo [(4, 7), (4, 8)] (by decide)).1 4 7,
   (generator_adjacency_invariant.1 pairGrid chDemo [(4, 7), (4, 8)] (by decide)).2
     (4, 7) (by decide) 2 3 (by decide)⟩

/-- C2 counterexample: the fixed intersecting pair (3-cell horizontal run at
row 2, cols 2-4, and 3-cell vertical run at col 3, rows 1-3, sharing the
center cell `(2,3)`) occupies 5 cells of the grid, not 7 as claimed. -/
theorem intersecting_pair_five_cells_counterexample :
    countWalls (placeIntersectingPair emptyGrid) = 5 ∧
    countWalls (placeIntersectingPair emptyGrid) ≠ 7 := by decide

/-- C2 (amended): every run of `generateMaze`, regardless of randomness,
first places the fixed intersecting pair — a 3-cell horizontal segment and a
3-cell vertical segment centered on its middle cell `(2,3)`, forming a
plus-shape — whose five cells are walls in every generated maze, and the
pair occupies 5 cells of the grid. -/
theorem intersecting_pair_guaranteed :
    ∀ o : Nat → WallChoice,
      (generateMaze o).grid 2 2 = true ∧ (generateMaze o).grid 2 3 = true ∧
      (generateMaze o).grid 2 4 = true ∧ (generateMaze o).grid 1 3 = true ∧
      (generateMaze o).grid 3 3 = true ∧
      countWalls (placeIntersectingPair emptyGrid) = 5 := by
  intro o
  have hcov := (genLoop_good o MAX_PLACEMENT_ATTEMPTS 0 0
    (placeIntersectingPair emptyGrid) [] goodGen_base).1
  refine ⟨?_, ?_, ?_, ?_, ?_, by decide⟩ <;>
    exact (hcov _ _).mpr ⟨pairCells, List.mem_cons_self _ _, by decide⟩

/-- C7: `generateMaze` is a total function (it always terminates); it
performs at most `MAX_PLACEMENT_ATTEMPTS = 200` detached-wall placement
attempts, places at most `NUM_DETACHED_WALLS = 6` detached segments, and the
loop stops early exactly when 6 are placed (otherwise the full budget of 200
attempts was used).  A result with fewer than 6 segments is an ordinary
value of the same type — no error path exists. -/
theorem generator_budget :
    ∀ o : Nat → WallChoice,
      (generateMaze o).attempts ≤ MAX_PLACEMENT_ATTEMPTS ∧
      (generateMaze o).placed ≤ NUM_DETACHED_WALLS ∧
      (generateMaze o).placed = (generateMaze o).segs.length ∧
      ((generateMaze o).placed = NUM_DETACHED_WALLS ∨
        (generateMaze o).attempts = MAX_PLACEMENT_ATTEMPTS) := by
  intro o
  have h := genLoop_bounds o MAX_PLACEMENT_ATTEMPTS 0 0
    (placeIntersectingPair emptyGrid) [] (by norm_num [NUM_DETACHED_WALLS]) rfl
  exact ⟨h.1, h.2.1, h.2.2.2, h.2.2.1⟩

/-- C9: every maze leaves the whole 1-cell border open: every wall cell of
every generated grid lies in rows 1-4 and columns 1-9, every cell of every
accepted detached segment does too, and the fallback spawn tile `(0,0)` is
always open. -/
theorem border_always_open :
    ∀ o : Nat → WallChoice,
      (∀ r c, (generateMaze o).grid r c = true → 1 ≤ r ∧ r ≤ 4 ∧ 1 ≤ c ∧ c ≤ 9) ∧
      (∀ seg ∈ (generateMaze o).segs, ∀ p ∈ seg,
        1 ≤ p.1 ∧ p.1 ≤ 4 ∧ 1 ≤ p.2 ∧ p.2 ≤ 9) ∧
      (generateMaze o).grid 0 0 = false := by
  intro o
  have hgood := genLoop_good o MAX_PLACEMENT_ATTEMPTS 0 0
    (placeIntersectingPair emptyGrid) [] goodGen_base
  obtain ⟨hcov, hint, _⟩ := hgood
  have hcell : ∀ r c, (generateMaze o).grid r c = true →
      1 ≤ r ∧ r ≤ 4 ∧ 1 ≤ c ∧ c ≤ 9 := by
    intro r c hrc
    obtain ⟨u, hu, hmem⟩ := (hcov r c).mp hrc
    have := hint u hu (r, c) hmem
    omega
  refine ⟨hcell, ?_, ?_⟩
  · intro seg hseg p hp
    have := hint seg (List.mem_cons_of_mem _ hseg) p hp
    omega
  · cases h : (generateMaze o).grid 0 0
    · rfl
    · have := hcell 0 0 h
      omega

def oRej : Nat → WallChoice := fun _ => ⟨false, 3, 0, 0⟩

theorem border_always_open_witness :
    (generateMaze oRej).grid 2 3 = true ∧ (1 ≤ 2 ∧ 2 ≤ 4 ∧ 1 ≤ 3 ∧ 3 ≤ 9) ∧
    (generateMaze oRej).grid 0 0 = false :=
  ⟨by decide, (border_always_open oRej).1 2 3 (by decide), (border_always_open oRej).2.2⟩

/-! ### Tile adjacency resolver (lines 1020-1063) -/

/-- The branch structure of `getTileIndex` as a function of the four
neighbor flags (`up`, `down`, `left`, `right`). -/
def getTileIndexOf (up down left right : Bool) : Nat :=
  let hasVertical := up || down
  let hasHorizontal := left || right
  if hasVertical && hasHorizontal then BUSH_JOINER
  else if hasVertical then
    if up && down then BUSH_VERT_MIDDLE
    else if down then BUSH_VERT_CAP_TOP
    else BUSH_VERT_CAP_BOTTOM
  else if hasHorizontal then
    if left && right then BUSH_HORIZ_MIDDLE
    else if right then BUSH_HORIZ_CAP_LEFT
    else BUSH_HORIZ_CAP_RIGHT
  else BUSH_JOINER

/-- `getTileIndex` (lines 1020-1063): neighbor flags come from the
bounds-checked `isWall`. -/
def getTileIndex (g : Grid) (row col : ℤ) : Nat :=
  getTileIndexOf (isWall g (row - 1) col) (isWall g (row + 1) col)
    (isWall g row (col - 1)) (isWall g row (col + 1))

/-- Modelled from the spec: the 16-entry neighbor-pattern table of §4.3 —
both-axis neighbors → joiner; vertical-only: both sides → middle, only-below
→ top cap, only-above → bottom cap; horizontal-only: both sides → middle,
only-right → left cap, only-left → right cap; no blocked neighbor → joiner. -/
def specTileTable (up down left right : Bool) : Nat :=
  if (up || down) && (left || right) then BUSH_JOINER
  else if up && down then BUSH_VERT_MIDDLE
  else if !up && down then BUSH_VERT_CAP_TOP
  else if up && !down then BUSH_VERT_CAP_BOTTOM
  else if left && right then BUSH_HORIZ_MIDDLE
  else if !left && right then BUSH_HORIZ_CAP_LEFT
  else if left && !right then BUSH_HORIZ_CAP_RIGHT
  else BUSH_JOINER

/-- C6: `getTileIndex` is a total pure function of the cell's 4-neighborhood
blocked flags; on each of the 16 combinations it agrees with the spec's
table and returns one of the 7 tile variants. -/
theorem tile_resolver_totality :
    ∀ (g : Grid) (row col : ℤ),
      getTileIndex g row col =
        specTileTable (isWall g (row - 1) col) (isWall g (row + 1) col)
          (isWall g row (col - 1)) (isWall g row (col + 1)) ∧
      getTileIndex g row col ∈ [BUSH_VERT_MIDDLE, BUSH_VERT_CAP_TOP,
        BUSH_HORIZ_MIDDLE, BUSH_HORIZ_CAP_LEFT, BUSH_JOINER,
        BUSH_HORIZ_CAP_RIGHT, BUSH_VERT_CAP_BOTTOM] := by
  intro g row col
  rw [getTileIndex]
  generalize isWall g (row - 1) col = up
  generalize isWall g (row + 1) col = down
  generalize isWall g row (col - 1) = left
  generalize isWall g row (col + 1) = right
  revert up down left right
  decide

/-! ### Agents and hitboxes (lines 569-617, 899-913) -/

inductive NPCType where
  | dog
  | chick
deriving DecidableEq

structure Player where
  x : ℚ
  y : ℚ
  width : ℚ
  height : ℚ
  frame : Nat
deriving DecidableEq

structure NPC where
  x : ℚ
  y : ℚ
  width : ℚ
  height : ℚ
  type : NPCType
  dead : Bool
  wanderX : ℚ
  wanderY : ℚ
  nextWanderTime : ℚ
  stuckTime : Nat
  prevX : ℚ
  prevY : ℚ
deriving DecidableEq

/-- `hitboxesOverlap` (lines 899-908): 80x80 hitboxes at offset 20 inside
the 120x120 sprites, strict-inequality AABB overlap. -/
def hitboxesOverlap (x1 y1 x2 y2 : ℚ) : Bool :=
  let hx1 := x1 + HITBOX_OFFSET
  let hy1 := y1 + HITBOX_OFFSET
  let hx2 := x2 + HITBOX_OFFSET
  let hy2 := y2 + HITBOX_OFFSET
  decide (hx1 < hx2 + HITBOX_SIZE) && decide (hx1 + HITBOX_SIZE > hx2) &&
  decide (hy1 < hy2 + HITBOX_SIZE) && decide (hy1 + HITBOX_SIZE > hy2)

/-- The integer range `lo..hi` (inclusive), as iterated by the
`for (let row = startRow; row <= endRow; row++)` loops. -/
def intRange (lo hi : ℤ) : List ℤ :=
  (List.range (hi + 1 - lo).toNat).map fun i => lo + i

/-- The wall-tile phase shared verbatim by `collidesWithWall`
(lines 1287-1311) and `npcCollidesWithWall` (lines 1495-1522): scan the
tiles the 80x80 hitbox can overlap, test AABB overlap against each wall
tile's centered hitbox.  `wallMatrix[row]?.[col]` is `isWall`. -/
def wallCollides (g : Grid) (x y : ℚ) : Bool :=
  let phx := x + HITBOX_OFFSET
  let phy := y + HITBOX_OFFSET
  let startCol := ⌊phx / TILE_SIZE⌋
  let endCol := ⌊(phx + HITBOX_SIZE - 1) / TILE_SIZE⌋
  let startRow := ⌊phy / TILE_SIZE⌋
  let endRow := ⌊(phy + HITBOX_SIZE - 1) / TILE_SIZE⌋
  (intRange startRow endRow).any fun row =>
    (intRange startCol endCol).any fun col =>
      isWall g row col &&
        (let bhx := (col : ℚ) * TILE_SIZE + HITBOX_OFFSET
         let bhy := (row : ℚ) * TILE_SIZE + HITBOX_OFFSET
         decide (phx < bhx + HITBOX_SIZE) && decide (phx + HITBOX_SIZE > bhx) &&
         decide (phy < bhy + HITBOX_SIZE) && decide (phy + HITBOX_SIZE > bhy))

/-- `collidesWithWall` (lines 1287-1322): wall tiles, then live non-chick
NPCs (`!npc.dead && npc.type !== "chick"`). -/
def collidesWithWall (g : Grid) (npcs : List NPC) (x y : ℚ) : Bool :=
  wallCollides g x y ||
    npcs.any fun npc =>
      !npc.dead && decide (npc.type ≠ NPCType.chick) && hitboxesOverlap x y npc.x npc.y

/-- C3: the player's movement collision test reports a collision exactly
when a wall tile collides or some live pursuer (dog) NPC's hitbox overlaps;
quarry (chick) NPCs and dead NPCs never block the player. -/
theorem quarry_pass_through :
    ∀ (g : Grid) (npcs : List NPC) (x y : ℚ),
      collidesWithWall g npcs x y = true ↔
        (wallCollides g x y = true ∨
          ∃ npc ∈ npcs, npc.dead = false ∧ npc.type = NPCType.dog ∧
            hitboxesOverlap x y npc.x npc.y = true) := by
  intro g npcs x y
  unfold collidesWithWall
  rw [Bool.or_eq_true, List.any_eq_true]
  constructor
  · rintro (hw | ⟨npc, hmem, hcond⟩)
    · exact Or.inl hw
    · simp only [Bool.and_eq_true, Bool.not_eq_true', decide_eq_true_eq] at hcond
      refine Or.inr ⟨npc, hmem, hcond.1.1, ?_, hcond.2⟩
      cases hty : npc.type
      · rfl
      · exact absurd hty hcond.1.2
  · rintro (hw | ⟨npc, hmem, hdead, hty, hov⟩)
    · exact Or.inl hw
    · refine Or.inr ⟨npc, hmem, ?_⟩
      simp [hdead, hty, hov]

/-! ### Line of sight (lines 1524-1547) -/

/-- Number of ray-march steps of `hasLineOfSight`:
`steps = max(1, Math.floor(distance / 20))` where `distance` is the
Euclidean center-to-center distance.  With `d2 = dx·dx + dy·dy`,
`⌊√d2 / 20⌋ = Nat.sqrt ⌊d2 / 400⌋` — both equal the greatest `n` with
`400·n·n ≤ d2` — so the step count is computed exactly. -/
def losSteps (x1 y1 x2 y2 : ℚ) : Nat :=
  let dx := (x2 + TILE_SIZE / 2) - (x1 + TILE_SIZE / 2)
  let dy := (y2 + TILE_SIZE / 2) - (y1 + TILE_SIZE / 2)
  max 1 (Nat.sqrt (⌊(dx * dx + dy * dy) / 400⌋).toNat)

/-- The sample point at parameter `t = i / steps` of the segment between
the two sprite centers. -/
def losSample (x1 y1 x2 y2 : ℚ) (i : Nat) : ℚ × ℚ :=
  let cx1 := x1 + TILE_SIZE / 2
  let cy1 := y1 + TILE_SIZE / 2
  let dx := (x2 + TILE_SIZE / 2) - cx1
  let dy := (y2 + TILE_SIZE / 2) - cy1
  let t : ℚ := (i : ℚ) / (losSteps x1 y1 x2 y2 : ℚ)
  (cx1 + dx * t, cy1 + dy * t)

/-- `hasLineOfSight` (lines 1524-1547): false as soon as one sample falls
on a wall cell (`wallMatrix[row]?.[col]` is `isWall`); the early-return
loop over `i = 0..steps` is `List.all`. -/
def hasLineOfSight (g : Grid) (x1 y1 x2 y2 : ℚ) : Bool :=
  (List.range (losSteps x1 y1 x2 y2 + 1)).all fun i =>
    !isWall g ⌊(losSample x1 y1 x2 y2 i).2 / TILE_SIZE⌋
      ⌊(losSample x1 y1 x2 y2 i).1 / TILE_SIZE⌋

/-- Modelled from the spec: line of sight succeeds exactly when every
sampled point of the center-to-center segment (~20 px intervals, endpoints
included) falls on an open grid cell. -/
def losClear (g : Grid) (x1 y1 x2 y2 : ℚ) : Prop :=
  ∀ i ∈ List.range (losSteps x1 y1 x2 y2 + 1),
    isWall g ⌊(losSample x1 y1 x2 y2 i).2 / TILE_SIZE⌋
      ⌊(losSample x1 y1 x2 y2 i).1 / TILE_SIZE⌋ = false

theorem hasLineOfSight_iff (g : Grid) (x1 y1 x2 y2 : ℚ) :
    hasLineOfSight g x1 y1 x2 y2 = true ↔ losClear g x1 y1 x2 y2 := by
  unfold hasLineOfSight losClear
  rw [List.all_eq_true]
  constructor
  · intro h i hi
    have := h i hi
    simpa using this
  · intro h i hi
    have := h i hi
    simpa using this

/-! ### NPC behavior engine (lines 1359-1522) -/

/-- Per-NPC per-tick oracle inputs: the `1/distance` normalisation factors
produced by the `Math.sqrt` calls at the three steering call sites, the raw
`Math.random()` draws of the flee jitter and the wander-delay, and the
wander-target tile picks (one raw `(col, row)` draw per attempt). -/
structure NpcRand where
  invDistChase : ℚ
  invDistWander : ℚ
  invDistFlee : ℚ
  jitterA : ℚ
  jitterB : ℚ
  wanderDelay : ℚ
  wanderPick : Nat → Nat × Nat

/-- `npcCollidesWithWall` (lines 1495-1522): textually the wall phase of
`collidesWithWall`, embedded once as `wallCollides`. -/
def npcCollidesWithWall (g : Grid) (x y : ℚ) : Bool := wallCollides g x y

/-- `moveNpcToward` (lines 1437-1457): `distance < 1` is `d2 < 1` on
squares; `invDist` stands for the `1/distance` normalisation factor. -/
def moveNpcToward (g : Grid) (npc : NPC) (targetX targetY speed invDist : ℚ) : NPC :=
  let dx := targetX - npc.x
  let dy := targetY - npc.y
  if dx * dx + dy * dy < 1 then npc
  else
    let vx := dx * invDist * speed
    let vy := dy * invDist * speed
    let newX := npc.x + vx
    let newY := npc.y + vy
    let x1 := if npcCollidesWithWall g newX npc.y then npc.x else newX
    let y1 := if npcCollidesWithWall g x1 newY then npc.y else newY
    { npc with x := x1, y := y1 }

/-- `moveNpcAway` (lines 1459-1493): flee vector, sequential edge-safety
zeroing accumulating the `atEdge` flag, jitter when at an edge or stuck
(`jA`, `jB` are the two raw `Math.random()` draws), then per-axis wall
collision exactly as `moveNpcToward`. -/
def moveNpcAway (g : Grid) (npc : NPC) (targetX targetY speed invDist jA jB : ℚ) : NPC :=
  let dx := npc.x - targetX
  let dy := npc.y - targetY
  if dx * dx + dy * dy < 1 then npc
  else
    let vx0 := dx * invDist * speed
    let vy0 := dy * invDist * speed
    let pad : ℚ := 20
    let vx1 := if npc.x ≤ pad ∧ vx0 < 0 then 0 else vx0
    let e1 := decide (npc.x ≤ pad ∧ vx0 < 0)
    let vx2 := if npc.x ≥ MAP_WIDTH - npc.width - pad ∧ vx1 > 0 then 0 else vx1
    let e2 := e1 || decide (npc.x ≥ MAP_WIDTH - npc.width - pad ∧ vx1 > 0)
    let vy1 := if npc.y ≤ pad ∧ vy0 < 0 then 0 else vy0
    let e3 := e2 || decide (npc.y ≤ pad ∧ vy0 < 0)
    let vy2 := if npc.y ≥ MAP_HEIGHT - npc.height - pad ∧ vy1 > 0 then 0 else vy1
    let atEdge := e3 || decide (npc.y ≥ MAP_HEIGHT - npc.height - pad ∧ vy1 > 0)
    let jitterStrength := speed * (4 / 5)
    let vx := if atEdge || decide (npc.stuckTime > 5) then
        vx2 + (jA - 1 / 2) * jitterStrength * 2 else vx2
    let vy := if atEdge || decide (npc.stuckTime > 5) then
        vy2 + (jB - 1 / 2) * jitterStrength * 2 else vy2
    let newX := npc.x + vx
    let newY := npc.y + vy
    let x1 := if npcCollidesWithWall g newX npc.y then npc.x else newX
    let y1 := if npcCollidesWithWall g x1 newY then npc.y else newY
    { npc with x := x1, y := y1 }

/-- `pickRandomWanderTarget` (lines 1421-1435): up to 20 rejection-sampling
attempts for an open tile; the bounds re-check of the source is always true
for `col < GRID_COLS`, `row < GRID_ROWS`. -/
def pickWanderTarget (g : Grid) (pick : Nat → Nat × Nat) : Nat → NPC → NPC
  | 0, npc => npc
  | fuel + 1, npc =>
    let col := (pick fuel).1 % GRID_COLS
    let row := (pick fuel).2 % GRID_ROWS
    if g row col then pickWanderTarget g pick fuel npc
    else { npc with wanderX := (col : ℚ) * TILE_SIZE, wanderY := (row : ℚ) * TILE_SIZE }

/-- `wanderNpc` (lines 1404-1419): re-pick the target when reached
(`dist < 20`, i.e. `d2 < 400`), when the cooldown expired, or when stuck
more than 15 frames; then steer toward the wander target. -/
def wanderNpc (g : Grid) (npc : NPC) (currentTime speed : ℚ) (r : NpcRand) : NPC :=
  let dx := npc.wanderX - npc.x
  let dy := npc.wanderY - npc.y
  let reached := decide (dx * dx + dy * dy < 400)
  let npc1 :=
    if reached || decide (currentTime > npc.nextWanderTime) || decide (npc.stuckTime > 15) then
      let npc2 := pickWanderTarget g r.wanderPick 20 npc
      { npc2 with nextWanderTime := currentTime + 1000 + r.wanderDelay * 1000, stuckTime := 0 }
    else npc
  moveNpcToward g npc1 npc1.wanderX npc1.wanderY speed r.invDistWander

/-- Lines 1388-1400 of `updateNPCs`: clamp the NPC to map bounds, then the
stuck detection (Manhattan delta below 0.5) and previous-position update. -/
def finishNpc (npc : NPC) : NPC :=
  let x := max 0 (min npc.x (MAP_WIDTH - npc.width))
  let y := max 0 (min npc.y (MAP_HEIGHT - npc.height))
  let moved := |x - npc.prevX| + |y - npc.prevY|
  let stuck := if moved < 1 / 2 then npc.stuckTime + 1 else 0
  { npc with x := x, y := y, stuckTime := stuck, prevX := x, prevY := y }

/-- The body of the `for (const npc of this.npcs)` loop of `updateNPCs`
(lines 1362-1401).  `distanceToPlayer < DOG_CHASE_RANGE` is compared on
squares (`Math.sqrt` is monotone). -/
def updateOneNpc (g : Grid) (p : Player) (speedMult currentTime : ℚ)
    (r : NpcRand) (npc : NPC) : NPC :=
  if npc.dead then npc
  else
    let hasLOS := hasLineOfSight g npc.x npc.y p.x p.y
    let d2 := (p.x - npc.x) * (p.x - npc.x) + (p.y - npc.y) * (p.y - npc.y)
    let moved :=
      match npc.type with
      | NPCType.chick =>
        if hasLOS then
          moveNpcAway g npc p.x p.y (CHICK_SPEED_FLEE * speedMult) r.invDistFlee r.jitterA r.jitterB
        else wanderNpc g npc currentTime (CHICK_SPEED_WANDER * speedMult) r
      | NPCType.dog =>
        if hasLOS && decide (d2 < DOG_CHASE_RANGE * DOG_CHASE_RANGE) then
          moveNpcToward g npc p.x p.y (DOG_SPEED_CHASE * speedMult) r.invDistChase
        else wanderNpc g npc currentTime (DOG_SPEED_WANDER * speedMult) r
    finishNpc moved

/-- `updateNPCs` (lines 1359-1402): each NPC is updated in order against the
fixed player position; NPCs do not interact with each other here. -/
def updateNPCsAux (g : Grid) (p : Player) (speedMult currentTime : ℚ)
    (rands : Nat → NpcRand) : Nat → List NPC → List NPC
  | _, [] => []
  | i, npc :: rest =>
    updateOneNpc g p speedMult currentTime (rands i) npc ::
      updateNPCsAux g p speedMult currentTime rands (i + 1) rest

def updateNPCs (g : Grid) (p : Player) (speedMult currentTime : ℚ)
    (rands : Nat → NpcRand) (npcs : List NPC) : List NPC :=
  updateNPCsAux g p speedMult currentTime rands 0 npcs

/-- Modelled from the spec: a pursuer chases exactly when it has line of
sight to the player (every sampled point open) and its center distance is
strictly under the 300 px chase radius (compared on squares). -/
def dogChaseCond (g : Grid) (npc : NPC) (p : Player) : Prop :=
  losClear g npc.x npc.y p.x p.y ∧
  (p.x - npc.x) * (p.x - npc.x) + (p.y - npc.y) * (p.y - npc.y) <
    DOG_CHASE_RANGE * DOG_CHASE_RANGE

instance (g : Grid) (x1 y1 x2 y2 : ℚ) : Decidable (losClear g x1 y1 x2 y2) := by
  unfold losClear
  infer_instance

instance (g : Grid) (npc : NPC) (p : Player) : Decidable (dogChaseCond g npc p) := by
  unfold dogChaseCond
  infer_instance

/-- C4: on every tick, a live pursuer (dog) NPC takes the chase step — move
directly toward the player at chase speed — exactly when it has line of
sight (every ~20 px sample of the center-to-center segment, endpoints
included, on an open cell) and its distance to the player is strictly below
the 300 px chase radius; otherwise it takes the wander step. -/
theorem pursuer_chase_gating :
    ∀ (g : Grid) (p : Player) (speedMult currentTime : ℚ) (r : NpcRand) (npc : NPC),
      npc.dead = false → npc.type = NPCType.dog →
      (dogChaseCond g npc p →
        updateOneNpc g p speedMult currentTime r npc =
          finishNpc (moveNpcToward g npc p.x p.y (DOG_SPEED_CHASE * speedMult)
            r.invDistChase)) ∧
      (¬ dogChaseCond g npc p →
        updateOneNpc g p speedMult currentTime r npc =
          finishNpc (wanderNpc g npc currentTime (DOG_SPEED_WANDER * speedMult) r)) := by
  intro g p sm t r npc hdead hty
  constructor
  · intro hc
    simp only [updateOneNpc, hdead, hty, Bool.false_eq_true, if_false]
    rw [if_pos]
    rw [Bool.and_eq_true]
    exact ⟨(hasLineOfSight_iff g npc.x npc.y p.x p.y).mpr hc.1, decide_eq_true hc.2⟩
  · intro hc
    simp only [updateOneNpc, hdead, hty, Bool.false_eq_true, if_false]
    rw [if_neg]
    intro hcond
    rw [Bool.and_eq_true] at hcond
    exact hc ⟨(hasLineOfSight_iff g npc.x npc.y p.x p.y).mp hcond.1,
      of_decide_eq_true hcond.2⟩

def npcDemo : NPC :=
  ⟨0, 0, 120, 120, NPCType.dog, false, 0, 0, 0, 0, 0, 0⟩

def playerDemo : Player := ⟨100, 0, 120, 120, 0⟩

def randDemo : NpcRand := ⟨0, 0, 0, 0, 0, 0, fun _ => (0, 0)⟩

theorem pursuer_chase_gating_witness :
    npcDemo.dead = false ∧ dogChaseCond emptyGrid npcDemo playerDemo ∧
    updateOneNpc emptyGrid playerDemo 1 0 randDemo npcDemo =
      finishNpc (moveNpcToward emptyGrid npcDemo playerDemo.x playerDemo.y
        (DOG_SPEED_CHASE * 1) randDemo.invDistChase) :=
  ⟨rfl, by with_unfolding_all decide,
    (pursuer_chase_gating emptyGrid playerDemo 1 0 randDemo npcDemo rfl rfl).1
      (by with_unfolding_all decide)⟩

/-! ### Game state and the simulation tick (lines 603-617, 1081-1145, 1324-1357) -/

/-- The simulation-relevant fields of `MazeScene` (lines 603-617).  Camera,
canvases, decoded images and raw input plumbing are presentation-layer. -/
structure GameState where
  grid : Grid
  player : Player
  npcs : List NPC
  gameStarted : Bool
  gameOver : Bool
  levelComplete : Bool
  score : Nat
  highScore : Nat
  level : Nat

/-- Input intents of one tick: the four arrow-key flags and the mouse/touch
steering (`mouseActive` models `this.mouseTarget && this.isMouseDown`;
`mouseInvDist` is the `1/dist` normalisation oracle of the drag vector). -/
structure TickInput where
  left : Bool
  right : Bool
  up : Bool
  down : Bool
  mouseActive : Bool
  mouseX : ℚ
  mouseY : ℚ
  mouseInvDist : ℚ

/-- Oracles of one tick: `performance.now()` and the per-NPC random draws. -/
structure TickRand where
  time : ℚ
  npcRand : Nat → NpcRand

/-- `getSpeedMultiplier` (lines 761-764): `Math.pow(1.1, level - 1)`. -/
def getSpeedMultiplier (level : Nat) : ℚ := (11 / 10 : ℚ) ^ (level - 1)

/-- Player movement of `update` (lines 1096-1135): arrow keys adjust the
candidate position by `PLAYER_SPEED` per axis; an active mouse/touch drag
beyond the 10 px dead zone (`dist > 10`, i.e. `d2 > 100` on squares)
overrides the candidate with a step toward the target; then per-axis
collision resolution against walls and blocking NPCs, then the map-bounds
clamp. -/
def movePlayer (g : Grid) (npcs : List NPC) (inp : TickInput) (p : Player) : Player :=
  let newX0 := p.x - (if inp.left then PLAYER_SPEED else 0) +
    (if inp.right then PLAYER_SPEED else 0)
  let newY0 := p.y - (if inp.up then PLAYER_SPEED else 0) +
    (if inp.down then PLAYER_SPEED else 0)
  let dx := inp.mouseX - (p.x + p.width / 2)
  let dy := inp.mouseY - (p.y + p.height / 2)
  let useMouse := inp.mouseActive && decide (dx * dx + dy * dy > 100)
  let newX := if useMouse then p.x + dx * inp.mouseInvDist * PLAYER_SPEED else newX0
  let newY := if useMouse then p.y + dy * inp.mouseInvDist * PLAYER_SPEED else newY0
  let x1 := if collidesWithWall g npcs newX p.y then p.x else newX
  let y1 := if collidesWithWall g npcs x1 newY then p.y else newY
  let x2 := max 0 (min x1 (MAP_WIDTH - p.width))
  let y2 := max 0 (min y1 (MAP_HEIGHT - p.height))
  { p with x := x2, y := y2 }

/-- Result of `checkChickCollisions`. -/
structure ChickOut where
  npcs : List NPC
  score : Nat
  highScore : Nat
  levelComplete : Bool

/-- `checkChickCollisions` (lines 1324-1346), iterating over the NPC array
(`done` is the already-visited prefix, `todo` the rest): a live chick
overlapping the player dies in place, the score increments, the high score
updates when exceeded, and `levelComplete` is set when no live chick remains
in the whole array at that moment.  (The cookie write and the bones-image
swap are presentation.) -/
def chickStep (p : Player) : List NPC → List NPC → Nat → Nat → Bool → ChickOut
  | done, [], score, hs, lc => ⟨done, score, hs, lc⟩
  | done, npc :: rest, score, hs, lc =>
    if npc.type = NPCType.chick ∧ npc.dead = false ∧
        hitboxesOverlap p.x p.y npc.x npc.y = true then
      let npc1 := { npc with dead := true }
      let score1 := score + 1
      let hs1 := if score1 > hs then score1 else hs
      let alive := (done ++ npc1 :: rest).filter fun n =>
        decide (n.type = NPCType.chick) && !n.dead
      let lc1 := if alive.length = 0 then true else lc
      chickStep p (done ++ [npc1]) rest score1 hs1 lc1
    else chickStep p (done ++ [npc]) rest score hs lc

def checkChickCollisions (p : Player) (npcs : List NPC) (score hs : Nat)
    (lc : Bool) : ChickOut :=
  chickStep p [] npcs score hs lc

/-- `checkDogCollision` (lines 1348-1357): a live dog hitbox overlapping the
player sets `gameOver`. -/
def checkDogCollision (s : GameState) : GameState :=
  if s.npcs.any fun n => decide (n.type = NPCType.dog) && !n.dead &&
      hitboxesOverlap s.player.x s.player.y n.x n.y
  then { s with gameOver := true } else s

/-- The gameplay block of `update` (lines 1095-1144) up to but excluding
`checkDogCollision`: player movement, NPC AI against the moved player,
then chick-catching. -/
def playStep (inp : TickInput) (rnd : TickRand) (s : GameState) : GameState :=
  let p1 := movePlayer s.grid s.npcs inp s.player
  let npcs1 := updateNPCs s.grid p1 (getSpeedMultiplier s.level) rnd.time rnd.npcRand s.npcs
  let co := checkChickCollisions p1 npcs1 s.score s.highScore s.levelComplete
  { s with
      player := p1
      npcs := co.npcs
      score := co.score
      highScore := co.highScore
      levelComplete := co.levelComplete }

/-- One simulation tick: `update` (lines 1081-1145).  Before the game
starts, and when `gameOver` or `levelComplete` holds, the simulation state
is unchanged — the skipped remainder of `update` only draws. -/
def tick (inp : TickInput) (rnd : TickRand) (s : GameState) : GameState :=
  if !s.gameStarted then s
  else if s.gameOver || s.levelComplete then s
  else checkDogCollision (playStep inp rnd s)

/-- A run of consecutive ticks with per-tick inputs and oracles. -/
def ticks : List (TickInput × TickRand) → GameState → GameState
  | [], s => s
  | t :: rest, s => ticks rest (tick t.1 t.2 s)

/-- `spawnNPC` (lines 852-897): up to 50 rejection-sampling attempts for an
open tile within `[minCol, maxCol]` whose hitbox overlaps neither the player
nor an existing NPC; on success the NPC (with fresh AI state, lines 880-895)
is appended, on exhaustion the population is silently left unchanged.
`pick` supplies the raw `(col, row)` draw of each attempt. -/
def spawnAux (g : Grid) (p : Player) (ty : NPCType) (minCol maxCol : Nat)
    (pick : Nat → Nat × Nat) : Nat → List NPC → List NPC
  | 0, npcs => npcs
  | fuel + 1, npcs =>
    let tileCol := minCol + (pick fuel).1 % (maxCol - minCol + 1)
    let tileRow := (pick fuel).2 % GRID_ROWS
    if GRID_ROWS ≤ tileRow ∨ GRID_COLS ≤ tileCol then
      spawnAux g p ty minCol maxCol pick fuel npcs
    else if g tileRow tileCol then spawnAux g p ty minCol maxCol pick fuel npcs
    else
      let x := (tileCol : ℚ) * TILE_SIZE
      let y := (tileRow : ℚ) * TILE_SIZE
      if hitboxesOverlap x y p.x p.y then spawnAux g p ty minCol maxCol pick fuel npcs
      else if npcs.any fun n => hitboxesOverlap x y n.x n.y then
        spawnAux g p ty minCol maxCol pick fuel npcs
      else npcs ++ [⟨x, y, 120, 120, ty, false, x, y, 0, 0, x, y⟩]

def spawnNPC (g : Grid) (p : Player) (npcs : List NPC) (ty : NPCType)
    (minCol maxCol : Nat) (pick : Nat → Nat × Nat) : List NPC :=
  spawnAux g p ty minCol maxCol pick 50 npcs

/-! ### Tick lemmas -/

/-- NPC fields no per-tick movement function changes. -/
def samePhys (a b : NPC) : Prop :=
  a.width = b.width ∧ a.height = b.height ∧ a.type = b.type ∧ a.dead = b.dead

theorem samePhys_refl (a : NPC) : samePhys a a := ⟨rfl, rfl, rfl, rfl⟩

theorem samePhys_trans {a b c : NPC} (h1 : samePhys a b) (h2 : samePhys b c) :
    samePhys a c :=
  ⟨h1.1.trans h2.1, h1.2.1.trans h2.2.1, h1.2.2.1.trans h2.2.2.1, h1.2.2.2.trans h2.2.2.2⟩

theorem moveNpcToward_phys (g : Grid) (npc : NPC) (tx ty sp inv : ℚ) :
    samePhys (moveNpcToward g npc tx ty sp inv) npc := by
  unfold moveNpcToward
  dsimp only
  split
  · exact samePhys_refl _
  · exact ⟨rfl, rfl, rfl, rfl⟩

theorem moveNpcAway_phys (g : Grid) (npc : NPC) (tx ty sp inv jA jB : ℚ) :
    samePhys (moveNpcAway g npc tx ty sp inv jA jB) npc := by
  unfold moveNpcAway
  dsimp only
  split
  · exact samePhys_refl _
  · exact ⟨rfl, rfl, rfl, rfl⟩

theorem pickWanderTarget_phys (g : Grid) (pick : Nat → Nat × Nat) :
    ∀ fuel npc, samePhys (pickWanderTarget g pick fuel npc) npc := by
  intro fuel
  induction fuel with
  | zero => intro npc; exact samePhys_refl _
  | succ n ih =>
    intro npc
    unfold pickWanderTarget
    dsimp only
    split
    · exact ih npc
    · exact ⟨rfl, rfl, rfl, rfl⟩

theorem wanderNpc_phys (g : Grid) (npc : NPC) (t sp : ℚ) (r : NpcRand) :
    samePhys (wanderNpc g npc t sp r) npc := by
  unfold wanderNpc
  dsimp only
  refine samePhys_trans (moveNpcToward_phys _ _ _ _ _ _) ?_
  split
  · have hp := pickWanderTarget_phys g r.wanderPick 20 npc
    exact ⟨hp.1, hp.2.1, hp.2.2.1, hp.2.2.2⟩
  · exact samePhys_refl _

theorem finishNpc_phys (npc : NPC) : samePhys (finishNpc npc) npc :=
  ⟨rfl, rfl, rfl, rfl⟩

theorem updateOneNpc_cases (g : Grid) (p : Player) (sm t : ℚ) (r : NpcRand) (npc : NPC) :
    updateOneNpc g p sm t r npc = npc ∨
    ∃ m : NPC, samePhys m npc ∧ updateOneNpc g p sm t r npc = finishNpc m := by
  unfold updateOneNpc
  dsimp only
  split
  · exact Or.inl rfl
  · refine Or.inr ?_
    cases hty : npc.type <;> dsimp only
    · split
      · exact ⟨_, moveNpcToward_phys _ _ _ _ _ _, rfl⟩
      · exact ⟨_, wanderNpc_phys _ _ _ _ _, rfl⟩
    · split
      · exact ⟨_, moveNpcAway_phys _ _ _ _ _ _ _ _, rfl⟩
      · exact ⟨_, wanderNpc_phys _ _ _ _ _, rfl⟩

theorem updateOneNpc_phys (g : Grid) (p : Player) (sm t : ℚ) (r : NpcRand) (npc : NPC) :
    samePhys (updateOneNpc g p sm t r npc) npc := by
  rcases updateOneNpc_cases g p sm t r npc with h | ⟨m, hm, h⟩
  · rw [h]
    exact samePhys_refl _
  · rw [h]
    exact samePhys_trans (finishNpc_phys m) hm

def inBoundsPlayer (p : Player) : Prop :=
  0 ≤ p.x ∧ p.x ≤ MAP_WIDTH - p.width ∧ 0 ≤ p.y ∧ p.y ≤ MAP_HEIGHT - p.height

def inBoundsNpc (n : NPC) : Prop :=
  0 ≤ n.x ∧ n.x ≤ MAP_WIDTH - n.width ∧ 0 ≤ n.y ∧ n.y ≤ MAP_HEIGHT - n.height

/-- Every agent of the state lies inside the map bounds. -/
def inBounds (s : GameState) : Prop :=
  inBoundsPlayer s.player ∧ ∀ n ∈ s.npcs, inBoundsNpc n

instance (p : Player) : Decidable (inBoundsPlayer p) := by
  unfold inBoundsPlayer
  infer_instance

instance (n : NPC) : Decidable (inBoundsNpc n) := by
  unfold inBoundsNpc
  infer_instance

instance (s : GameState) : Decidable (inBounds s) := by
  unfold inBounds
  infer_instance

theorem clamp_bounds {x hi : ℚ} (h : 0 ≤ hi) :
    0 ≤ max 0 (min x hi) ∧ max 0 (min x hi) ≤ hi :=
  ⟨le_max_left _ _, max_le h (min_le_right _ _)⟩

theorem finishNpc_inBounds {npc : NPC} (h1 : 0 ≤ MAP_WIDTH - npc.width)
    (h2 : 0 ≤ MAP_HEIGHT - npc.height) : inBoundsNpc (finishNpc npc) := by
  unfold finishNpc inBoundsNpc
  dsimp only
  exact ⟨(clamp_bounds h1).1, (clamp_bounds h1).2, (clamp_bounds h2).1, (clamp_bounds h2).2⟩

theorem updateOneNpc_inBounds (g : Grid) (p : Player) (sm t : ℚ) (r : NpcRand)
    {npc : NPC} (h : inBoundsNpc npc) : inBoundsNpc (updateOneNpc g p sm t r npc) := by
  rcases updateOneNpc_cases g p sm t r npc with heq | ⟨m, hm, heq⟩
  · rw [heq]
    exact h
  · rw [heq]
    refine finishNpc_inBounds ?_ ?_
    · rw [hm.1]
      exact le_trans h.1 h.2.1
    · rw [hm.2.1]
      exact le_trans h.2.2.1 h.2.2.2

theorem updateNPCsAux_forall (g : Grid) (p : Player) (sm t : ℚ) (rands : Nat → NpcRand)
    (P : NPC → Prop) (hP : ∀ r npc, P npc → P (updateOneNpc g p sm t r npc)) :
    ∀ i npcs, (∀ n ∈ npcs, P n) →
      ∀ m ∈ updateNPCsAux g p sm t rands i npcs, P m := by
  intro i npcs
  induction npcs generalizing i with
  | nil =>
    intro _ m hm
    simp [updateNPCsAux] at hm
  | cons a rest ih =>
    intro hall m hm
    simp only [updateNPCsAux] at hm
    rcases List.mem_cons.mp hm with h1 | h1
    · rw [h1]
      exact hP _ _ (hall a (List.mem_cons_self _ _))
    · exact ih (i + 1) (fun n hn => hall n (List.mem_cons_of_mem _ hn)) m h1

theorem chickStep_forall (p : Player) (P : NPC → Prop)
    (hP : ∀ n, P n → P { n with dead := true }) :
    ∀ todo done score hs lc, (∀ n ∈ done, P n) → (∀ n ∈ todo, P n) →
      ∀ m ∈ (chickStep p done todo score hs lc).npcs, P m := by
  intro todo
  induction todo with
  | nil =>
    intro done _ _ _ hdone _ m hm
    simp only [chickStep] at hm
    exact hdone m hm
  | cons a rest ih =>
    intro done score hs lc hdone htodo m hm
    simp only [chickStep] at hm
    split at hm
    · refine ih _ _ _ _ (fun n hn => ?_) (fun n hn => htodo n (List.mem_cons_of_mem _ hn)) m hm
      rcases List.mem_append.mp hn with h1 | h1
      · exact hdone n h1
      · simp only [List.mem_singleton] at h1
        rw [h1]
        exact hP a (htodo a (List.mem_cons_self _ _))
    · refine ih _ _ _ _ (fun n hn => ?_) (fun n hn => htodo n (List.mem_cons_of_mem _ hn)) m hm
      rcases List.mem_append.mp hn with h1 | h1
      · exact hdone n h1
      · simp only [List.mem_singleton] at h1
        rw [h1]
        exact htodo a (List.mem_cons_self _ _)

theorem checkDogCollision_fields (s : GameState) :
    (checkDogCollision s).player = s.player ∧ (checkDogCollision s).npcs = s.npcs ∧
    (checkDogCollision s).levelComplete = s.levelComplete ∧
    (checkDogCollision s).score = s.score ∧ (checkDogCollision s).level = s.level := by
  unfold checkDogCollision
  split
  · exact ⟨rfl, rfl, rfl, rfl, rfl⟩
  · exact ⟨rfl, rfl, rfl, rfl, rfl⟩

theorem movePlayer_inBounds (g : Grid) (npcs : List NPC) (inp : TickInput)
    {p : Player} (h : inBoundsPlayer p) : inBoundsPlayer (movePlayer g npcs inp p) := by
  have h1 : 0 ≤ MAP_WIDTH - p.width := le_trans h.1 h.2.1
  have h2 : 0 ≤ MAP_HEIGHT - p.height := le_trans h.2.2.1 h.2.2.2
  unfold movePlayer inBoundsPlayer
  dsimp only
  exact ⟨(clamp_bounds h1).1, (clamp_bounds h1).2, (clamp_bounds h2).1, (clamp_bounds h2).2⟩

/-- C5: the map-bounds invariant `0 ≤ x ≤ mapWidth - width`,
`0 ≤ y ≤ mapHeight - height` for the player and every NPC is preserved by
every simulation tick, for any inputs and random choices: each moving
agent's position is re-clamped at the end of its move, and agents that do
not move this tick keep their in-bounds position. -/
theorem movement_clamp :
    ∀ (inp : TickInput) (rnd : TickRand) (s : GameState),
      inBounds s → inBounds (tick inp rnd s) := by
  intro inp rnd s h
  unfold tick
  split
  · exact h
  · split
    · exact h
    · have hfields := checkDogCollision_fields (playStep inp rnd s)
      unfold inBounds
      rw [hfields.1, hfields.2.1]
      unfold playStep
      dsimp only
      constructor
      · exact movePlayer_inBounds _ _ _ h.1
      · intro n hn
        unfold checkChickCollisions at hn
        refine chickStep_forall _ inBoundsNpc
          (fun m hm => ⟨hm.1, hm.2.1, hm.2.2.1, hm.2.2.2⟩) _ _ _ _ _
          (by intro x hx; simp at hx) ?_ n hn
        intro x hx
        exact updateNPCsAux_forall _ _ _ _ _ inBoundsNpc
          (fun rr m hm => updateOneNpc_inBounds _ _ _ _ _ hm) 0 s.npcs h.2 x hx

def stateDemo : GameState := ⟨emptyGrid, playerDemo, [npcDemo], true, false, false, 0, 0, 1⟩

def inpDemo : TickInput := ⟨false, false, false, false, false, 0, 0, 0⟩

def rndDemo : TickRand := ⟨0, fun _ => randDemo⟩

theorem movement_clamp_witness :
    inBounds stateDemo ∧ inBounds (tick inpDemo rndDemo stateDemo) :=
  ⟨by with_unfolding_all decide,
    movement_clamp inpDemo rndDemo stateDemo (by with_unfolding_all decide)⟩

theorem tick_fixed_of_gameOver (inp : TickInput) (rnd : TickRand) {s : GameState}
    (hgo : s.gameOver = true) : tick inp rnd s = s := by
  unfold tick
  cases hgs : s.gameStarted <;> simp [hgo]

theorem ticks_fixed_of_gameOver {s : GameState} (hgo : s.gameOver = true) :
    ∀ l : List (TickInput × TickRand), ticks l s = s := by
  intro l
  induction l with
  | nil => rfl
  | cons t rest ih =>
    show ticks rest (tick t.1 t.2 s) = s
    rw [tick_fixed_of_gameOver t.1 t.2 hgo]
    exact ih

/-- C8: if during a playing tick (`gameStarted`, not `gameOver`, not
`levelComplete`) a live pursuer's hitbox overlaps the player's hitbox after
the movement phase, `gameOver` is true at the end of that same tick; and
once `gameOver` holds, every subsequent tick (until an external restart)
leaves the whole simulation state — player, NPCs, score, level, flags —
unchanged. -/
theorem gameover_latch :
    ∀ (inp : TickInput) (rnd : TickRand) (s : GameState),
      (s.gameStarted = true → s.gameOver = false → s.levelComplete = false →
        (∃ n ∈ (playStep inp rnd s).npcs,
            n.type = NPCType.dog ∧ n.dead = false ∧
            hitboxesOverlap (playStep inp rnd s).player.x (playStep inp rnd s).player.y
              n.x n.y = true) →
        (tick inp rnd s).gameOver = true) ∧
      (s.gameOver = true → tick inp rnd s = s) ∧
      (s.gameOver = true →
        ∀ l : List (TickInput × TickRand), ticks l s = s) := by
  intro inp rnd s
  refine ⟨?_, fun h => tick_fixed_of_gameOver inp rnd h,
    fun h => ticks_fixed_of_gameOver h⟩
  intro hgs hgo hlc hex
  unfold tick
  rw [hgs, hgo, hlc]
  simp only [Bool.not_true, Bool.false_eq_true, if_false, Bool.or_self]
  unfold checkDogCollision
  rw [if_pos]
  obtain ⟨n, hn, h1, h2, h3⟩ := hex
  refine List.any_eq_true.mpr ⟨n, hn, ?_⟩
  simp [h1, h2, h3]

def stateGODemo : GameState :=
  ⟨emptyGrid, playerDemo, [npcDemo], true, true, false, 0, 0, 1⟩

def stateDogDemo : GameState :=
  ⟨emptyGrid, ⟨0, 0, 120, 120, 0⟩, [npcDemo], true, false, false, 0, 0, 1⟩

theorem gameover_latch_witness :
    (tick inpDemo rndDemo stateDogDemo).gameOver = true ∧
    tick inpDemo rndDemo stateGODemo = stateGODemo := by
  have hex : ∃ n ∈ (playStep inpDemo rndDemo stateDogDemo).npcs,
      n.type = NPCType.dog ∧ n.dead = false ∧
      hitboxesOverlap (playStep inpDemo rndDemo stateDogDemo).player.x
        (playStep inpDemo rndDemo stateDogDemo).player.y n.x n.y = true := by
    with_unfolding_all decide
  exact ⟨(gameover_latch inpDemo rndDemo stateDogDemo).1 rfl rfl rfl hex,
    (gameover_latch inpDemo rndDemo stateGODemo).2.1 rfl⟩

/-- No live quarry (chick) NPC exists in the state. -/
def noLiveChicks (s : GameState) : Prop :=
  ∀ n ∈ s.npcs, n.type = NPCType.chick → n.dead = true

instance (s : GameState) : Decidable (noLiveChicks s) := by
  unfold noLiveChicks
  infer_instance

theorem chickStep_skip (p : Player) :
    ∀ todo done score hs lc,
      (∀ n ∈ todo, n.type = NPCType.chick → n.dead = true) →
      chickStep p done todo score hs lc = ⟨done ++ todo, score, hs, lc⟩ := by
  intro todo
  induction todo with
  | nil =>
    intro done score hs lc _
    simp [chickStep]
  | cons a rest ih =>
    intro done score hs lc h
    have hna : ¬(a.type = NPCType.chick ∧ a.dead = false ∧
        hitboxesOverlap p.x p.y a.x a.y = true) := by
      rintro ⟨h1, h2, _⟩
      have hd := h a (List.mem_cons_self _ _) h1
      rw [hd] at h2
      exact Bool.noConfusion h2
    simp only [chickStep]
    rw [if_neg hna, ih (done ++ [a]) _ _ _ (fun n hn => h n (List.mem_cons_of_mem _ hn))]
    simp

theorem noLiveChicks_tick (inp : TickInput) (rnd : TickRand) {s : GameState}
    (hlc : s.levelComplete = false) (hnc : noLiveChicks s) :
    (tick inp rnd s).levelComplete = false ∧ noLiveChicks (tick inp rnd s) := by
  unfold tick
  split
  · exact ⟨hlc, hnc⟩
  split
  · exact ⟨hlc, hnc⟩
  have hnc1 : ∀ n ∈ updateNPCs s.grid (movePlayer s.grid s.npcs inp s.player)
      (getSpeedMultiplier s.level) rnd.time rnd.npcRand s.npcs,
      n.type = NPCType.chick → n.dead = true := by
    intro n hn
    refine updateNPCsAux_forall _ _ _ _ _
      (fun m => m.type = NPCType.chick → m.dead = true) (fun rr m hm => ?_)
      0 s.npcs hnc n hn
    intro hty
    have hp := updateOneNpc_phys s.grid (movePlayer s.grid s.npcs inp s.player)
      (getSpeedMultiplier s.level) rnd.time rr m
    rw [hp.2.2.2]
    refine hm ?_
    rw [← hp.2.2.1]
    exact hty
  have hskip := chickStep_skip (movePlayer s.grid s.npcs inp s.player)
    (updateNPCs s.grid (movePlayer s.grid s.npcs inp s.player)
      (getSpeedMultiplier s.level) rnd.time rnd.npcRand s.npcs)
    [] s.score s.highScore s.levelComplete hnc1
  unfold playStep checkChickCollisions
  dsimp only
  rw [hskip]
  dsimp only
  constructor
  · rw [(checkDogCollision_fields _).2.2.1]
    exact hlc
  · intro n hn
    rw [(checkDogCollision_fields _).2.1] at hn
    dsimp only at hn
    rw [List.nil_append] at hn
    exact hnc1 n hn

theorem spawnAux_fail (g : Grid) (p : Player) (ty : NPCType) (minCol maxCol : Nat)
    (pick : Nat → Nat × Nat) :
    ∀ fuel, fuel ≤ 50 →
      (∀ i ∈ List.range 50,
        GRID_COLS ≤ minCol + (pick i).1 % (maxCol - minCol + 1) ∨
        g ((pick i).2 % GRID_ROWS) (minCol + (pick i).1 % (maxCol - minCol + 1)) = true) →
      ∀ npcs, spawnAux g p ty minCol maxCol pick fuel npcs = npcs := by
  intro fuel
  induction fuel with
  | zero => intro _ _ npcs; rfl
  | succ n ih =>
    intro hle h npcs
    have hi := h n (List.mem_range.mpr (by omega))
    unfold spawnAux
    dsimp only
    rcases hi with h1 | h1
    · rw [if_pos (Or.inr h1)]
      exact ih (by omega) h npcs
    · by_cases hc : GRID_ROWS ≤ (pick n).2 % GRID_ROWS ∨
          GRID_COLS ≤ minCol + (pick n).1 % (maxCol - minCol + 1)
      · rw [if_pos hc]
        exact ih (by omega) h npcs
      · rw [if_neg hc, if_pos h1]
        exact ih (by omega) h npcs

/-- C10: the `levelComplete` flag is assigned only inside
`checkChickCollisions`, in the same tick a quarry dies; NPC spawning is
best-effort, silently leaving the population unchanged when its 50
placement attempts all fail; consequently a level that begins with zero
live quarry NPCs can never transition to level-complete, over any number
of ticks. -/
theorem level_complete_reachability :
    (∀ (g : Grid) (p : Player) (npcs : List NPC) (ty : NPCType) (minCol maxCol : Nat)
        (pick : Nat → Nat × Nat),
        (∀ i ∈ List.range 50,
          GRID_COLS ≤ minCol + (pick i).1 % (maxCol - minCol + 1) ∨
          g ((pick i).2 % GRID_ROWS) (minCol + (pick i).1 % (maxCol - minCol + 1)) = true) →
        spawnNPC g p npcs ty minCol maxCol pick = npcs) ∧
    ∀ s : GameState, s.levelComplete = false → noLiveChicks s →
      ∀ l : List (TickInput × TickRand), (ticks l s).levelComplete = false := by
  constructor
  · intro g p npcs ty minCol maxCol pick h
    exact spawnAux_fail g p ty minCol maxCol pick 50 (le_refl _) h npcs
  · suffices h : ∀ (l : List (TickInput × TickRand)) (s : GameState),
        s.levelComplete = false → noLiveChicks s → (ticks l s).levelComplete = false by
      intro s hlc hnc l
      exact h l s hlc hnc
    intro l
    induction l with
    | nil => intro s hlc _; exact hlc
    | cons t rest ih =>
      intro s hlc hnc
      have hstep := noLiveChicks_tick t.1 t.2 hlc hnc
      exact ih _ hstep.1 hstep.2

def pickWallDemo : Nat → Nat × Nat := fun _ => (3, 2)

theorem level_complete_reachability_witness :
    spawnNPC pairGrid playerDemo [] NPCType.chick 0 10 pickWallDemo = [] ∧
    (ticks [(inpDemo, rndDemo)] stateDemo).levelComplete = false :=
  ⟨level_complete_reachability.1 pairGrid playerDemo [] NPCType.chick 0 10 pickWallDemo
      (by decide),
    level_complete_reachability.2 stateDemo rfl (by decide) [(inpDemo, rndDemo)]⟩

end Foxes
